import Mathlib

/-!
Verification of the Jumping Dino motion-controlled arcade game.

The development shallowly embeds the round/session controller, the stats
aggregator, the streak evaluator, the leaderboard update and the jump event
detector of the repository.  Two variants of the application exist in the
sources: the state-machine variant (with an explicit `GAME_STATE` machine,
an `isGameActiveRef` guard and a remote leaderboard) and the earlier local
variant (no active guard, local top-5 leaderboard).  Both are embedded:
definitions suffixed `A` come from the state-machine variant, definitions
suffixed `B` from the local variant; the jump detector is shared up to the
active-gate (`detStepA` gated, `detStep` plain, as in `src/src/App.jsx`).

Time stamps are integers (milliseconds, as produced by `Date.now()`); the
normalized shoulder coordinate and durations in seconds are rationals,
modelling the JavaScript numbers exactly.
-/

namespace Dino

/-- The `GAME_STATE` constant of the state-machine variant:
`{ START, PLAYING, GAME_OVER }`. -/
inductive Phase where
  | start
  | playing
  | gameOver
deriving DecidableEq

/-- Lifetime session statistics, as stored under `dino_session_stats`:
`{ totalJumps, totalPlayTime, totalScore, roundsPlayed }`.
`totalPlayTime` is in seconds and may be fractional. -/
structure SessionStats where
  totalJumps : ℕ
  totalPlayTime : ℚ
  totalScore : ℕ
  roundsPlayed : ℕ
deriving DecidableEq

/-- The default / reset value of the session statistics. -/
def zeroStats : SessionStats := ⟨0, 0, 0, 0⟩

/-- The updater passed to `setSessionStats` inside `handleGameOver`:
adds the completed round's jumps, play time and score, and counts the
round. -/
def sessionStatsUpdate (prev : SessionStats) (score jumps : ℕ)
    (roundTime : ℚ) : SessionStats :=
  { totalJumps := prev.totalJumps + jumps
    totalPlayTime := prev.totalPlayTime + roundTime
    totalScore := prev.totalScore + score
    roundsPlayed := prev.roundsPlayed + 1 }

/-- The improvement streak, as stored under `dino_streak`:
`{ current, best, lastScore }`. -/
structure Streak where
  current : ℕ
  best : ℕ
  lastScore : ℕ
deriving DecidableEq

/-- The default / reset value of the streak. -/
def zeroStreak : Streak := ⟨0, 0, 0⟩

/-- The updater passed to `setStreak` inside `handleGameOver`: a round
whose score improves on `lastScore` (or a first round, `lastScore == 0`)
extends the streak and updates the best; otherwise the streak resets to 0.
`lastScore` is overwritten with the new score in both branches. -/
def streakUpdate (prev : Streak) (score : ℕ) : Streak :=
  if prev.lastScore = 0 ∨ prev.lastScore < score then
    { current := prev.current + 1
      best := max prev.best (prev.current + 1)
      lastScore := score }
  else
    { current := 0, best := prev.best, lastScore := score }

/-- The streak states reached from the initial streak after each round of a
score sequence (the initial state included). -/
def streakTrace (scores : List ℕ) : List Streak :=
  List.scanl streakUpdate zeroStreak scores

/-- Value of a base-10 digit string, as `parseInt(digits.join(""), 10)`
computes it on the digit list of the engine's distance meter. -/
def digitsVal (ds : List ℕ) : ℕ :=
  ds.foldl (fun acc d => 10 * acc + d) 0

/-- Score extraction in `handleGameOver`:
`parseInt(digits.join(""), 10) || 0` wrapped in `try { ... } catch { score = 0 }`.
`none` models the exception path (the runner or its distance meter is
unreadable); an empty digit list joins to `""`, `parseInt` yields `NaN`,
and `|| 0` turns it into `0`. -/
def parseScore : Option (List ℕ) → ℕ
  | none => 0
  | some [] => 0
  | some ds => digitsVal ds

/-- A record pushed to the remote leaderboard store by the state-machine
variant: `{ name, score, timestamp, jumps, time, gameMode }` (the constant
`gameMode` field is omitted). -/
structure FBEntry where
  name : String
  score : ℕ
  timestamp : ℤ
  jumps : ℕ
  time : ℤ
deriving DecidableEq

/-- State of the state-machine variant of the application that
`handleGameOver` and `resetStats` read and write: the `gameState` phase,
the `isGameActiveRef` guard, the player identity, the round-scoped
counters, the derived statistics, the leaderboard view and the list of
records written to the remote store. -/
structure AppStateA where
  phase : Phase
  active : Bool
  playerName : String
  jumpCount : ℕ
  roundStart : ℤ
  sessionStats : SessionStats
  streak : Streak
  leaderboard : List FBEntry
  fbWrites : List FBEntry
  lastGameScore : Option ℕ
deriving DecidableEq

/-- `handleGameOver` of the state-machine variant.  It returns unchanged
state when the round is not active; otherwise it clears the active flag,
reads the score (`reading` is the digit list of the distance meter, `none`
when unreadable), records the round in the remote store (only when a
player name is present), folds the round into the session statistics and
the streak, and moves to the `GAME_OVER` phase. -/
def handleGameOverA (st : AppStateA) (reading : Option (List ℕ))
    (now : ℤ) : AppStateA :=
  if st.active = true then
    { st with
      active := false
      lastGameScore := some (parseScore reading)
      fbWrites :=
        if st.playerName = "" then st.fbWrites
        else st.fbWrites ++
          [⟨st.playerName, parseScore reading, now, st.jumpCount,
            round (((now - st.roundStart : ℤ) : ℚ) / 1000)⟩]
      sessionStats := sessionStatsUpdate st.sessionStats (parseScore reading)
        st.jumpCount (((now - st.roundStart : ℤ) : ℚ) / 1000)
      streak := streakUpdate st.streak (parseScore reading)
      phase := Phase.gameOver }
  else st

/-- `resetStats` of the state-machine variant: writes zeroed session
statistics and a zeroed streak; nothing else is touched. -/
def resetStatsA (st : AppStateA) : AppStateA :=
  { st with sessionStats := zeroStats, streak := zeroStreak }

/-- A local leaderboard entry of the local variant:
`{ score, date, jumps, time }`. -/
structure LBEntry where
  score : ℕ
  date : ℤ
  jumps : ℕ
  time : ℤ
deriving DecidableEq

/-- Stable insertion of an entry into a score-descending list: the entry
goes in front of the first element whose score it matches or exceeds
(so among equal scores the element arriving earlier stays first). -/
def insertDesc (a : LBEntry) : List LBEntry → List LBEntry
  | [] => [a]
  | b :: l => if b.score ≤ a.score then a :: b :: l else b :: insertDesc a l

/-- Stable sort by score descending, the behaviour of
`list.sort((a, b) => b.score - a.score)` (JavaScript sorts are stable). -/
def sortByScoreDesc : List LBEntry → List LBEntry
  | [] => []
  | a :: l => insertDesc a (sortByScoreDesc l)

/-- The local leaderboard update inside the local variant's
`handleGameOver`: `[...prev, entry].sort((a, b) => b.score - a.score).slice(0, 5)`. -/
def leaderboardUpdate (prev : List LBEntry) (e : LBEntry) : List LBEntry :=
  (sortByScoreDesc (prev ++ [e])).take 5

/-- The highlight index computed after the update:
`updated.findIndex((x) => x.date === entry.date && x.score === entry.score)`,
which is `-1` ("not ranked") when no matching entry survived truncation. -/
def reportedRank (l : List LBEntry) (e : LBEntry) : ℤ :=
  match l.findIdx? (fun x => x.date == e.date && x.score == e.score) with
  | some i => (i : ℤ)
  | none => -1

/-- State of the local variant of the application that `handleGameOver`
and `resetStats` read and write.  This variant has no phase machine, no
active guard and no player identity. -/
structure AppStateB where
  jumpCount : ℕ
  roundStart : ℤ
  sessionStats : SessionStats
  streak : Streak
  leaderboard : List LBEntry
  lastGameScore : Option ℕ
  newHighlight : ℤ
deriving DecidableEq

/-- `handleGameOver` of the local variant.  There is no active-round
guard: every invocation reads the score, inserts a leaderboard entry,
folds the round into the session statistics and the streak, and resets the
round-scoped counters. -/
def handleGameOverB (st : AppStateB) (reading : Option (List ℕ))
    (now : ℤ) : AppStateB :=
  { st with
    lastGameScore := some (parseScore reading)
    leaderboard := leaderboardUpdate st.leaderboard
      ⟨parseScore reading, now, st.jumpCount,
       round (((now - st.roundStart : ℤ) : ℚ) / 1000)⟩
    newHighlight := reportedRank
      (leaderboardUpdate st.leaderboard
        ⟨parseScore reading, now, st.jumpCount,
         round (((now - st.roundStart : ℤ) : ℚ) / 1000)⟩)
      ⟨parseScore reading, now, st.jumpCount,
       round (((now - st.roundStart : ℤ) : ℚ) / 1000)⟩
    sessionStats := sessionStatsUpdate st.sessionStats (parseScore reading)
      st.jumpCount (((now - st.roundStart : ℤ) : ℚ) / 1000)
    streak := streakUpdate st.streak (parseScore reading)
    jumpCount := 0
    roundStart := now }

/-- `resetStats` of the local variant: identical to the state-machine
variant's reset, on the local state. -/
def resetStatsB (st : AppStateB) : AppStateB :=
  { st with sessionStats := zeroStats, streak := zeroStreak }

/-- State of the jump event detector: `prevShoulderRef` (the previous
frame's averaged shoulder height, `none` before the first pose-bearing
frame) and `lastJumpTimeRef` (the timestamp of the last emitted jump,
initially 0). -/
structure DetState where
  prevY : Option ℚ
  lastJumpTime : ℤ
deriving DecidableEq

/-- The jump displacement threshold `0.04`. -/
def jumpThreshold : ℚ := 4 / 100

/-- The jump cooldown `500` milliseconds. -/
def jumpCooldownMs : ℤ := 500

/-- Detector state at application start. -/
def initDet : DetState := ⟨none, 0⟩

/-- One detector step of the plain variant (`src/src/App.jsx`): with a
previous sample present, a jump is emitted exactly when
`prevY - y > 0.04` and `now - lastJumpTime > 500`; the previous sample is
overwritten unconditionally. -/
def detStep (st : DetState) (y : ℚ) (now : ℤ) : DetState × Bool :=
  match st.prevY with
  | none => (⟨some y, st.lastJumpTime⟩, false)
  | some p =>
    if jumpThreshold < p - y ∧ jumpCooldownMs < now - st.lastJumpTime then
      (⟨some y, now⟩, true)
    else
      (⟨some y, st.lastJumpTime⟩, false)

/-- One detector step of the state-machine variant: identical to
`detStep` except that the emission branch additionally requires
`isGameActiveRef.current` to be set (`prevShoulderRef.current !== null && isGameActiveRef.current`). -/
def detStepA (active : Bool) (st : DetState) (y : ℚ) (now : ℤ) :
    DetState × Bool :=
  match st.prevY with
  | none => (⟨some y, st.lastJumpTime⟩, false)
  | some p =>
    if active = true then
      if jumpThreshold < p - y ∧ jumpCooldownMs < now - st.lastJumpTime then
        (⟨some y, now⟩, true)
      else
        (⟨some y, st.lastJumpTime⟩, false)
    else
      (⟨some y, st.lastJumpTime⟩, false)

/-- One camera frame of the plain variant: the averaged shoulder height
when a pose was detected (`results.poseLandmarks` non-null), and the frame
timestamp. -/
structure Frame where
  pose : Option ℚ
  t : ℤ
deriving DecidableEq

/-- One camera frame of the state-machine variant: additionally carries
the value of the active flag at frame time. -/
structure FrameA where
  active : Bool
  pose : Option ℚ
  t : ℤ
deriving DecidableEq

/-- Processing of one frame in the plain variant's `pose.onResults`
callback: a frame without a pose leaves the detector state untouched
(in particular `prevShoulderRef` is NOT reset on pose loss). -/
def frameStep (st : DetState) (f : Frame) : DetState × Bool :=
  match f.pose with
  | none => (st, false)
  | some y => detStep st y f.t

/-- Processing of one frame in the state-machine variant's
`pose.onResults` callback; pose loss leaves the state untouched here as
well. -/
def frameStepA (st : DetState) (f : FrameA) : DetState × Bool :=
  match f.pose with
  | none => (st, false)
  | some y => detStepA f.active st y f.t

/-- Run of the plain detector over a frame sequence, collecting the
timestamps of the emitted jump events. -/
def runDet : DetState → List Frame → DetState × List ℤ
  | st, [] => (st, [])
  | st, f :: fs =>
    ((runDet (frameStep st f).1 fs).1,
     if (frameStep st f).2 then f.t :: (runDet (frameStep st f).1 fs).2
     else (runDet (frameStep st f).1 fs).2)

/-- Run of the state-machine variant's detector over a frame sequence,
collecting the timestamps of the emitted jump events. -/
def runDetA : DetState → List FrameA → DetState × List ℤ
  | st, [] => (st, [])
  | st, f :: fs =>
    ((runDetA (frameStepA st f).1 fs).1,
     if (frameStepA st f).2 then f.t :: (runDetA (frameStepA st f).1 fs).2
     else (runDetA (frameStepA st f).1 fs).2)

/-!
Theorems.
-/

/-- C3: the Stats Aggregator's `applyRound` maps any prior statistics and
round result `{score, jumps, roundTime}` to exactly
`{totalJumps + jumps, totalPlayTime + roundTime, totalScore + score,
roundsPlayed + 1}`; in particular, from empty stats a round
`{score:150, jumps:6, roundTime:42.3}` yields
`{totalJumps:6, totalPlayTime:42.3, totalScore:150, roundsPlayed:1}`. -/
theorem sessionStatsUpdate_spec :
    (∀ (prev : SessionStats) (score jumps : ℕ) (roundTime : ℚ),
      sessionStatsUpdate prev score jumps roundTime =
        ⟨prev.totalJumps + jumps, prev.totalPlayTime + roundTime,
         prev.totalScore + score, prev.roundsPlayed + 1⟩) ∧
    sessionStatsUpdate zeroStats 150 6 (423 / 10) = ⟨6, 423 / 10, 150, 1⟩ := by
  refine ⟨fun prev score jumps roundTime => rfl, ?_⟩
  simp only [sessionStatsUpdate, zeroStats, SessionStats.mk.injEq]
  norm_num

/-- C4: the Streak Evaluator's `applyRound`: when `lastScore == 0` or the
new score exceeds `lastScore`, `current` is incremented and `best` becomes
`max best current`; otherwise `current` resets to 0 and `best` is
unchanged; `lastScore` becomes the new score in both cases.  Scenarios:
`{2,3,80}` with score 90 becomes `{3,3,90}`, with score 50 it becomes
`{0,3,50}`. -/
theorem streakUpdate_spec :
    (∀ (prev : Streak) (score : ℕ),
      ((prev.lastScore = 0 ∨ prev.lastScore < score) →
        streakUpdate prev score =
          ⟨prev.current + 1, max prev.best (prev.current + 1), score⟩) ∧
      (¬(prev.lastScore = 0 ∨ prev.lastScore < score) →
        streakUpdate prev score = ⟨0, prev.best, score⟩)) ∧
    streakUpdate ⟨2, 3, 80⟩ 90 = ⟨3, 3, 90⟩ ∧
    streakUpdate ⟨2, 3, 80⟩ 50 = ⟨0, 3, 50⟩ := by
  refine ⟨fun prev score => ⟨fun h => ?_, fun h => ?_⟩, by decide, by decide⟩
  · simp only [streakUpdate, if_pos h]
  · simp only [streakUpdate, if_neg h]

/-- C4 witness: the improvement branch of `streakUpdate_spec` applied at
the concrete scenario state. -/
theorem streakUpdate_spec_witness :
    streakUpdate ⟨2, 3, 80⟩ 90 = ⟨3, 3, 90⟩ :=
  (streakUpdate_spec.1 ⟨2, 3, 80⟩ 90).1 (by decide)

/-- C10: `resetStats` zeroes all four session-statistics fields and, in
the same operation, also resets the streak to `{0, 0, 0}`; it leaves every
other piece of state — in particular the leaderboard and the stored player
identity — unchanged.  This holds in both variants. -/
theorem resetStats_spec :
    (∀ st : AppStateA,
      (resetStatsA st).sessionStats = ⟨0, 0, 0, 0⟩ ∧
      (resetStatsA st).streak = ⟨0, 0, 0⟩ ∧
      (resetStatsA st).leaderboard = st.leaderboard ∧
      (resetStatsA st).fbWrites = st.fbWrites ∧
      (resetStatsA st).playerName = st.playerName ∧
      (resetStatsA st).phase = st.phase ∧
      (resetStatsA st).active = st.active ∧
      (resetStatsA st).jumpCount = st.jumpCount ∧
      (resetStatsA st).roundStart = st.roundStart ∧
      (resetStatsA st).lastGameScore = st.lastGameScore) ∧
    (∀ st : AppStateB,
      (resetStatsB st).sessionStats = ⟨0, 0, 0, 0⟩ ∧
      (resetStatsB st).streak = ⟨0, 0, 0⟩ ∧
      (resetStatsB st).leaderboard = st.leaderboard ∧
      (resetStatsB st).jumpCount = st.jumpCount ∧
      (resetStatsB st).roundStart = st.roundStart ∧
      (resetStatsB st).lastGameScore = st.lastGameScore ∧
      (resetStatsB st).newHighlight = st.newHighlight) :=
  ⟨fun _ => ⟨rfl, rfl, rfl, rfl, rfl, rfl, rfl, rfl, rfl, rfl⟩,
   fun _ => ⟨rfl, rfl, rfl, rfl, rfl, rfl, rfl⟩⟩

/-- After any round, the streak satisfies `current ≤ best` (the update
establishes it regardless of the prior state: the improvement branch sets
`best = max best (current+1)`, the reset branch sets `current = 0`). -/
theorem streakUpdate_inv (st : Streak) (a : ℕ) :
    (streakUpdate st a).current ≤ (streakUpdate st a).best := by
  unfold streakUpdate
  split
  · exact le_max_right _ _
  · exact Nat.zero_le _

/-- `best` never decreases across a round. -/
theorem streakUpdate_best_mono (st : Streak) (a : ℕ) :
    st.best ≤ (streakUpdate st a).best := by
  unfold streakUpdate
  split
  · exact le_max_left _ _
  · exact le_refl _

instance : IsTrans Streak (fun a b => a.best ≤ b.best) :=
  ⟨fun _ _ _ h1 h2 => le_trans h1 h2⟩

/-- Every state in a streak trace satisfies the invariant, and `best`
increases weakly step by step. -/
theorem streakScanl_aux (scores : List ℕ) :
    ∀ st : Streak, st.current ≤ st.best →
      (∀ s ∈ List.scanl streakUpdate st scores, s.current ≤ s.best) ∧
      List.Chain' (fun a b : Streak => a.best ≤ b.best)
        (List.scanl streakUpdate st scores) := by
  induction scores with
  | nil =>
    intro st h
    refine ⟨fun s hs => ?_, ?_⟩
    · simp only [List.scanl, List.mem_singleton] at hs
      exact hs ▸ h
    · exact List.chain'_singleton st
  | cons a l ih =>
    intro st h
    have hub : (streakUpdate st a).current ≤ (streakUpdate st a).best :=
      streakUpdate_inv st a
    obtain ⟨ih1, ih2⟩ := ih (streakUpdate st a) hub
    have hhead : (List.scanl streakUpdate (streakUpdate st a) l).head? =
        some (streakUpdate st a) := by
      cases l <;> rfl
    refine ⟨fun s hs => ?_, ?_⟩
    · have hs' : s = st ∨ s ∈ List.scanl streakUpdate (streakUpdate st a) l := by
        simpa only [List.scanl, List.mem_cons] using hs
      rcases hs' with hs' | hs'
      · exact hs' ▸ h
      · exact ih1 s hs'
    · show List.Chain' (fun a b : Streak => a.best ≤ b.best)
        (st :: List.scanl streakUpdate (streakUpdate st a) l)
      rw [List.chain'_cons']
      refine ⟨fun y hy => ?_, ih2⟩
      rw [hhead, Option.mem_def, Option.some_inj] at hy
      exact hy ▸ streakUpdate_best_mono st a

/-- C6: starting from the initial streak `{current:0, best:0, lastScore:0}`,
after every `applyRound` step of any score sequence the invariant
`best ≥ current` holds, and `best` is non-decreasing across the whole
sequence. -/
theorem streakInvariant_spec :
    ∀ scores : List ℕ,
      (∀ s ∈ streakTrace scores, s.current ≤ s.best) ∧
      List.Pairwise (fun a b : Streak => a.best ≤ b.best)
        (streakTrace scores) := by
  intro scores
  obtain ⟨h1, h2⟩ := streakScanl_aux scores zeroStreak (le_refl 0)
  exact ⟨h1, List.chain'_iff_pairwise.mp h2⟩

/-- C6 witness: `streakInvariant_spec` applied to the score sequence
`[5, 3]` at the trace state reached after the first round. -/
theorem streakInvariant_spec_witness :
    (⟨1, 1, 5⟩ : Streak).current ≤ (⟨1, 1, 5⟩ : Streak).best :=
  (streakInvariant_spec [5, 3]).1 ⟨1, 1, 5⟩ (by decide)

/-- C2 counterexample: in the state-machine variant an upward motion of
`0.1 > 0.04` with the cooldown long elapsed emits NO jump event when the
round is not active, refuting "emitted if and only if `diff > 0.04` and
more than 500 ms elapsed" for that variant's detector. -/
theorem detEmission_iff_counterexample :
    (4 / 100 : ℚ) < 1 / 2 - 2 / 5 ∧ ((500 : ℤ) < 1000 - 0) ∧
    (detStepA false ⟨some (1 / 2), 0⟩ (2 / 5) 1000).2 = false := by
  refine ⟨by norm_num, by norm_num, ?_⟩
  simp [detStepA]

/-- C2 (amended): in the plain variant (`src/src/App.jsx`) a jump event is
emitted exactly when `diff > 0.04` and more than 500 ms elapsed since the
last event; in the state-machine variant the emission additionally
requires the active flag, and under an active round the same equivalence
holds.  A diff of exactly `0.04` never triggers, `0.0401` does when the
cooldown has elapsed. -/
theorem detEmission_iff :
    (∀ (st : DetState) (p y : ℚ) (now : ℤ), st.prevY = some p →
      ((detStep st y now).2 = true ↔
        (4 / 100 < p - y ∧ 500 < now - st.lastJumpTime))) ∧
    (∀ (active : Bool) (st : DetState) (p y : ℚ) (now : ℤ),
      st.prevY = some p →
      ((detStepA active st y now).2 = true ↔
        (active = true ∧ 4 / 100 < p - y ∧ 500 < now - st.lastJumpTime))) ∧
    (detStep ⟨some (1 / 2), 0⟩ (1 / 2 - 4 / 100) 1000).2 = false ∧
    (detStep ⟨some (1 / 2), 0⟩ (1 / 2 - 401 / 10000) 1000).2 = true := by
  refine ⟨?_, ?_, ?_, ?_⟩
  · intro st p y now hp
    rcases st with ⟨py, last⟩
    simp only at hp
    subst hp
    simp only [detStep, jumpThreshold, jumpCooldownMs]
    split_ifs with h
    · simpa using h
    · simpa using h
  · intro active st p y now hp
    rcases st with ⟨py, last⟩
    simp only at hp
    subst hp
    cases active with
    | false => simp [detStepA]
    | true =>
      simp only [detStepA, jumpThreshold, jumpCooldownMs, eq_self_iff_true,
        if_true]
      split_ifs with h
      · simpa using h
      · simpa using h
  · simp only [detStep, jumpThreshold, jumpCooldownMs]
    rw [if_neg]
    norm_num
  · simp only [detStep, jumpThreshold, jumpCooldownMs]
    rw [if_pos]
    norm_num

/-- C2 witness: the plain-variant equivalence of `detEmission_iff` applied
at a concrete sample (previous height 1/2, current 2/5, 1000 ms after the
last jump). -/
theorem detEmission_iff_witness :
    (detStep ⟨some (1 / 2), 0⟩ (2 / 5) 1000).2 = true :=
  (detEmission_iff.1 ⟨some (1 / 2), 0⟩ (1 / 2) (2 / 5) 1000 rfl).mpr
    (by norm_num)

/-- An emitted frame was at least 500 ms after the recorded last jump and
records its own timestamp; a silent frame keeps the recorded timestamp
(state-machine variant). -/
theorem frameStepA_emit (st : DetState) (f : FrameA) :
    ((frameStepA st f).2 = true →
      st.lastJumpTime + 500 < f.t ∧ (frameStepA st f).1.lastJumpTime = f.t) ∧
    ((frameStepA st f).2 = false →
      (frameStepA st f).1.lastJumpTime = st.lastJumpTime) := by
  rcases f with ⟨active, pose, t⟩
  rcases st with ⟨py, last⟩
  cases pose with
  | none => exact ⟨fun h => by simp [frameStepA] at h, fun _ => rfl⟩
  | some y =>
    cases py with
    | none => exact ⟨fun h => by simp [frameStepA, detStepA] at h, fun _ => rfl⟩
    | some p =>
      cases active with
      | false => exact ⟨fun h => by simp [frameStepA, detStepA] at h, fun _ => rfl⟩
      | true =>
        simp only [frameStepA, detStepA, jumpThreshold, jumpCooldownMs,
          eq_self_iff_true, if_true]
        split_ifs with h
        · exact ⟨fun _ => ⟨by omega, rfl⟩, fun hc => by simp at hc⟩
        · exact ⟨fun hc => by simp at hc, fun _ => rfl⟩

/-- An emitted frame was at least 500 ms after the recorded last jump and
records its own timestamp; a silent frame keeps the recorded timestamp
(plain variant). -/
theorem frameStep_emit (st : DetState) (f : Frame) :
    ((frameStep st f).2 = true →
      st.lastJumpTime + 500 < f.t ∧ (frameStep st f).1.lastJumpTime = f.t) ∧
    ((frameStep st f).2 = false →
      (frameStep st f).1.lastJumpTime = st.lastJumpTime) := by
  rcases f with ⟨pose, t⟩
  rcases st with ⟨py, last⟩
  cases pose with
  | none => exact ⟨fun h => by simp [frameStep] at h, fun _ => rfl⟩
  | some y =>
    cases py with
    | none => exact ⟨fun h => by simp [frameStep, detStep] at h, fun _ => rfl⟩
    | some p =>
      simp only [frameStep, detStep, jumpThreshold, jumpCooldownMs]
      split_ifs with h
      · exact ⟨fun _ => ⟨by omega, rfl⟩, fun hc => by simp at hc⟩
      · exact ⟨fun hc => by simp at hc, fun _ => rfl⟩

/-- The emission timestamps of a run form a chain starting at the recorded
last-jump time in which consecutive entries are more than 500 ms apart
(state-machine variant). -/
theorem runDetA_chain (frames : List FrameA) :
    ∀ st : DetState,
      List.Chain (fun a b : ℤ => a + 500 < b) st.lastJumpTime
        (runDetA st frames).2 := by
  induction frames with
  | nil => intro st; exact List.Chain.nil
  | cons f fs ih =>
    intro st
    have h := ih (frameStepA st f).1
    by_cases he : (frameStepA st f).2 = true
    · obtain ⟨h1, h2⟩ := (frameStepA_emit st f).1 he
      show List.Chain _ st.lastJumpTime
        (if (frameStepA st f).2 = true
         then f.t :: (runDetA (frameStepA st f).1 fs).2
         else (runDetA (frameStepA st f).1 fs).2)
      rw [if_pos he]
      exact List.Chain.cons h1 (h2 ▸ h)
    · have hf : (frameStepA st f).2 = false := by
        revert he; cases (frameStepA st f).2 <;> simp
      have h2 := (frameStepA_emit st f).2 hf
      show List.Chain _ st.lastJumpTime
        (if (frameStepA st f).2 = true
         then f.t :: (runDetA (frameStepA st f).1 fs).2
         else (runDetA (frameStepA st f).1 fs).2)
      rw [if_neg he]
      exact h2 ▸ h

/-- The emission timestamps of a run form a chain starting at the recorded
last-jump time in which consecutive entries are more than 500 ms apart
(plain variant). -/
theorem runDet_chain (frames : List Frame) :
    ∀ st : DetState,
      List.Chain (fun a b : ℤ => a + 500 < b) st.lastJumpTime
        (runDet st frames).2 := by
  induction frames with
  | nil => intro st; exact List.Chain.nil
  | cons f fs ih =>
    intro st
    have h := ih (frameStep st f).1
    by_cases he : (frameStep st f).2 = true
    · obtain ⟨h1, h2⟩ := (frameStep_emit st f).1 he
      show List.Chain _ st.lastJumpTime
        (if (frameStep st f).2 = true
         then f.t :: (runDet (frameStep st f).1 fs).2
         else (runDet (frameStep st f).1 fs).2)
      rw [if_pos he]
      exact List.Chain.cons h1 (h2 ▸ h)
    · have hf : (frameStep st f).2 = false := by
        revert he; cases (frameStep st f).2 <;> simp
      have h2 := (frameStep_emit st f).2 hf
      show List.Chain _ st.lastJumpTime
        (if (frameStep st f).2 = true
         then f.t :: (runDet (frameStep st f).1 fs).2
         else (runDet (frameStep st f).1 fs).2)
      rw [if_neg he]
      exact h2 ▸ h

instance : IsTrans ℤ (fun a b => a + 500 < b) :=
  ⟨fun _ _ _ h1 h2 => by omega⟩

/-- C7: in any run of either detector variant from the initial state, any
two emitted jump events are more than 500 ms apart; in particular two
upward motions less than 500 ms apart never produce more than one event. -/
theorem jumpRefractory_spec :
    (∀ frames : List FrameA,
      List.Pairwise (fun a b : ℤ => a + 500 < b) (runDetA initDet frames).2) ∧
    (∀ frames : List Frame,
      List.Pairwise (fun a b : ℤ => a + 500 < b) (runDet initDet frames).2) :=
  ⟨fun frames =>
    (List.chain_iff_pairwise.mp (runDetA_chain frames initDet)).of_cons,
   fun frames =>
    (List.chain_iff_pairwise.mp (runDet_chain frames initDet)).of_cons⟩

/-- C8 counterexample: the stream sees a pose at height 1/2 at t = 0,
loses the pose at t = 300, and re-acquires it at height 2/5 at t = 1000.
The first sample after the pose loss DOES emit a jump event (timestamp
1000), because `prevShoulderRef` is not reset on loss: the frame without
`poseLandmarks` leaves the detector state untouched, so the post-loss diff
is computed against the pre-loss height. -/
theorem poseLoss_counterexample :
    (runDetA initDet
      [⟨true, some (1 / 2), 0⟩, ⟨true, none, 300⟩,
       ⟨true, some (2 / 5), 1000⟩]).2 = [1000] := by
  norm_num [runDetA, frameStepA, detStepA, initDet, jumpThreshold,
    jumpCooldownMs]

/-- C8 (amended): no jump event is emitted while no previous sample
exists — the very first pose-bearing sample only seeds the state — in
both variants; but pose loss does NOT reset the previous sample: a frame
without a pose leaves the detector state entirely unchanged, so the first
sample after a loss is compared against the last pre-loss sample and can
emit. -/
theorem firstSample_seedsOnly :
    (∀ (st : DetState) (f : FrameA), st.prevY = none →
      (frameStepA st f).2 = false) ∧
    (∀ (st : DetState) (g : Frame), st.prevY = none →
      (frameStep st g).2 = false) ∧
    (∀ (st : DetState) (active : Bool) (t : ℤ),
      frameStepA st ⟨active, none, t⟩ = (st, false)) ∧
    (∀ (st : DetState) (t : ℤ), frameStep st ⟨none, t⟩ = (st, false)) := by
  refine ⟨?_, ?_, fun st active t => rfl, fun st t => rfl⟩
  · intro st f hp
    rcases f with ⟨active, pose, t⟩
    rcases st with ⟨py, last⟩
    simp only at hp
    subst hp
    cases pose with
    | none => rfl
    | some y => cases active <;> rfl
  · intro st g hp
    rcases g with ⟨pose, t⟩
    rcases st with ⟨py, last⟩
    simp only at hp
    subst hp
    cases pose with
    | none => rfl
    | some y => rfl

/-- C8 witness: `firstSample_seedsOnly` applied at the initial detector
state and a concrete first frame. -/
theorem firstSample_seedsOnly_witness :
    (frameStepA initDet ⟨true, some (1 / 2), 7⟩).2 = false :=
  firstSample_seedsOnly.1 initDet ⟨true, some (1 / 2), 7⟩ rfl

/-- A round state of the local variant, about to complete its first round
with 4 jumps. -/
def sampleStateB : AppStateB :=
  ⟨4, 0, zeroStats, zeroStreak, [], none, -1⟩

/-- C1 counterexample: the local variant's `handleGameOver` has no
active-round guard, so calling it twice in immediate succession counts the
round twice: the session statistics report two rounds played and the
leaderboard holds two entries, where the claim demands exactly one
update. -/
theorem gameOverB_double_counterexample :
    (handleGameOverB sampleStateB (some [7]) 0).sessionStats.roundsPlayed
      = 1 ∧
    (handleGameOverB (handleGameOverB sampleStateB (some [7]) 0)
      (some [7]) 0).sessionStats.roundsPlayed = 2 ∧
    (handleGameOverB (handleGameOverB sampleStateB (some [7]) 0)
      (some [7]) 0).leaderboard.length = 2 := by
  norm_num [handleGameOverB, sampleStateB, sessionStatsUpdate, streakUpdate,
    parseScore, digitsVal, leaderboardUpdate, sortByScoreDesc, insertDesc,
    zeroStats, zeroStreak]

/-- C1 (amended): the state-machine variant's `handleGameOver` is
idempotent: when the round is not active it is a complete no-op, it clears
the active flag before any further work, and therefore a repeated
invocation — with any score reading and at any later time — changes
nothing beyond the first.  The local variant's handler has no such guard
and applies the updates on every invocation. -/
theorem gameOverA_idempotent :
    (∀ (st : AppStateA) (r : Option (List ℕ)) (now : ℤ),
      st.active = false → handleGameOverA st r now = st) ∧
    (∀ (st : AppStateA) (r r' : Option (List ℕ)) (now now' : ℤ),
      handleGameOverA (handleGameOverA st r now) r' now' =
        handleGameOverA st r now) := by
  have hno : ∀ (st : AppStateA) (r : Option (List ℕ)) (now : ℤ),
      st.active = false → handleGameOverA st r now = st := by
    intro st r now h
    simp [handleGameOverA, h]
  refine ⟨hno, ?_⟩
  intro st r r' now now'
  by_cases h : st.active = true
  · apply hno
    simp [handleGameOverA, h]
  · have h' : st.active = false := by revert h; cases st.active <;> simp
    rw [hno st r now h', hno st r' now' h']

/-- C1 witness: the no-op branch of `gameOverA_idempotent` at a concrete
inactive state. -/
theorem gameOverA_idempotent_witness :
    handleGameOverA
      ⟨Phase.gameOver, false, "AB", 3, 0, zeroStats, zeroStreak, [], [],
       none⟩ none 5 =
      ⟨Phase.gameOver, false, "AB", 3, 0, zeroStats, zeroStreak, [], [],
       none⟩ :=
  gameOverA_idempotent.1 _ none 5 rfl

/-- C9: when the score reading is unparsable (the runner state is
unreadable, or the digit list is empty so `parseInt` yields `NaN`), an
active round still completes cleanly with the score treated as 0: the
session statistics, the streak and the leaderboard write are each applied
exactly once with score 0, and the phase moves to `GAME_OVER`. -/
theorem gameOverA_unparsable_spec :
    ∀ (st : AppStateA) (reading : Option (List ℕ)) (now : ℤ),
      st.active = true → (reading = none ∨ reading = some []) →
      handleGameOverA st reading now =
        { st with
          active := false
          lastGameScore := some 0
          fbWrites :=
            if st.playerName = "" then st.fbWrites
            else st.fbWrites ++
              [⟨st.playerName, 0, now, st.jumpCount,
                round (((now - st.roundStart : ℤ) : ℚ) / 1000)⟩]
          sessionStats := sessionStatsUpdate st.sessionStats 0 st.jumpCount
            (((now - st.roundStart : ℤ) : ℚ) / 1000)
          streak := streakUpdate st.streak 0
          phase := Phase.gameOver } := by
  intro st reading now ha hr
  rcases hr with h | h <;> subst h <;> simp [handleGameOverA, ha, parseScore]

/-- C9 witness: `gameOverA_unparsable_spec` at a concrete active state
with an unreadable score: the round is counted and the phase is
`GAME_OVER`. -/
theorem gameOverA_unparsable_spec_witness :
    (handleGameOverA
      ⟨Phase.playing, true, "ZED", 2, 0, zeroStats, zeroStreak, [], [],
       none⟩ none 3000).sessionStats.roundsPlayed = 1 ∧
    (handleGameOverA
      ⟨Phase.playing, true, "ZED", 2, 0, zeroStats, zeroStreak, [], [],
       none⟩ none 3000).phase = Phase.gameOver := by
  rw [gameOverA_unparsable_spec _ none 3000 rfl (Or.inl rfl)]
  exact ⟨rfl, rfl⟩

/-- Inserting an entry permutes consing it. -/
theorem insertDesc_perm (a : LBEntry) (l : List LBEntry) :
    (insertDesc a l).Perm (a :: l) := by
  induction l with
  | nil => exact List.Perm.refl _
  | cons b l ih =>
    unfold insertDesc
    split_ifs with hba
    · exact List.Perm.refl _
    · exact (ih.cons b).trans (List.Perm.swap a b l)

/-- The stable sort permutes its input. -/
theorem sortByScoreDesc_perm (l : List LBEntry) :
    (sortByScoreDesc l).Perm l := by
  induction l with
  | nil => exact List.Perm.refl _
  | cons a l ih =>
    exact (insertDesc_perm a (sortByScoreDesc l)).trans (ih.cons a)

/-- Insertion preserves the score-descending ordering. -/
theorem insertDesc_pairwise (a : LBEntry) (l : List LBEntry)
    (h : l.Pairwise (fun x y => y.score ≤ x.score)) :
    (insertDesc a l).Pairwise (fun x y => y.score ≤ x.score) := by
  induction l with
  | nil => simp [insertDesc]
  | cons b l ih =>
    obtain ⟨hb, hl⟩ := List.pairwise_cons.mp h
    unfold insertDesc
    split_ifs with hba
    · refine List.pairwise_cons.mpr ⟨?_, h⟩
      intro y hy
      rcases List.mem_cons.mp hy with hy | hy
      · exact hy ▸ hba
      · exact le_trans (hb y hy) hba
    · refine List.pairwise_cons.mpr ⟨?_, ih hl⟩
      intro y hy
      have hy' : y ∈ a :: l := (insertDesc_perm a l).subset hy
      rcases List.mem_cons.mp hy' with hy' | hy'
      · subst hy'
        omega
      · exact hb y hy'

/-- The stable sort yields a score-descending list. -/
theorem sortByScoreDesc_pairwise (l : List LBEntry) :
    (sortByScoreDesc l).Pairwise (fun x y => y.score ≤ x.score) := by
  induction l with
  | nil => exact List.Pairwise.nil
  | cons a l ih => exact insertDesc_pairwise a (sortByScoreDesc l) ih

/-- Stability of the insertion, phrased through score classes: among the
entries of any one score, insertion behaves like consing in front. -/
theorem insertDesc_filter (a : LBEntry) (s : ℕ) (l : List LBEntry) :
    (insertDesc a l).filter (fun x => x.score == s) =
      ((a :: l).filter (fun x => x.score == s)) := by
  induction l with
  | nil => rfl
  | cons b l ih =>
    unfold insertDesc
    split_ifs with hba
    · rfl
    · have hab : a.score < b.score := Nat.lt_of_not_le hba
      by_cases hbs : b.score = s
      · have has : a.score ≠ s := by omega
        simp only [List.filter_cons, ih]
        simp [hbs, has]
      · simp only [List.filter_cons, ih]
        simp [hbs]

/-- Stability of the stable sort: it does not reorder entries of equal
score. -/
theorem sortByScoreDesc_filter (s : ℕ) (l : List LBEntry) :
    (sortByScoreDesc l).filter (fun x => x.score == s) =
      l.filter (fun x => x.score == s) := by
  induction l with
  | nil => rfl
  | cons a l ih =>
    show (insertDesc a (sortByScoreDesc l)).filter _ = _
    rw [insertDesc_filter]
    simp only [List.filter_cons, ih]

/-- C5: the local top-5 leaderboard update appends the entry, stable-sorts
by score descending and truncates to 5: the result is score-descending,
every kept entry scores at least every dropped entry, kept and dropped
entries together are a permutation of the appended list, entries of equal
score keep their arrival order (the filter by any score value splits as
kept prefix then dropped rest), and the inserted entry's rank is reported
as `-1` ("not ranked") when no matching entry survives.  Scenario:
inserting score 85 into `[100, 90, 80, 70, 60]` yields
`[100, 90, 85, 80, 70]` with 60 dropped and the new entry at 0-indexed
rank 2. -/
theorem leaderboardUpdate_spec :
    (∀ (prev : List LBEntry) (e : LBEntry),
      (leaderboardUpdate prev e).Pairwise (fun x y => y.score ≤ x.score) ∧
      (∀ x ∈ leaderboardUpdate prev e,
        ∀ y ∈ (sortByScoreDesc (prev ++ [e])).drop 5, y.score ≤ x.score) ∧
      (leaderboardUpdate prev e ++
        (sortByScoreDesc (prev ++ [e])).drop 5).Perm (prev ++ [e]) ∧
      (∀ s : ℕ, (prev ++ [e]).filter (fun x => x.score == s) =
        (leaderboardUpdate prev e).filter (fun x => x.score == s) ++
        ((sortByScoreDesc (prev ++ [e])).drop 5).filter
          (fun x => x.score == s)) ∧
      ((∀ x ∈ leaderboardUpdate prev e,
          ¬(x.date = e.date ∧ x.score = e.score)) →
        reportedRank (leaderboardUpdate prev e) e = -1)) ∧
    leaderboardUpdate
      [⟨100, 1, 0, 0⟩, ⟨90, 2, 0, 0⟩, ⟨80, 3, 0, 0⟩, ⟨70, 4, 0, 0⟩,
       ⟨60, 5, 0, 0⟩] ⟨85, 6, 0, 0⟩ =
      [⟨100, 1, 0, 0⟩, ⟨90, 2, 0, 0⟩, ⟨85, 6, 0, 0⟩, ⟨80, 3, 0, 0⟩,
       ⟨70, 4, 0, 0⟩] ∧
    reportedRank
      (leaderboardUpdate
        [⟨100, 1, 0, 0⟩, ⟨90, 2, 0, 0⟩, ⟨80, 3, 0, 0⟩, ⟨70, 4, 0, 0⟩,
         ⟨60, 5, 0, 0⟩] ⟨85, 6, 0, 0⟩) ⟨85, 6, 0, 0⟩ = 2 := by
  refine ⟨fun prev e => ⟨?_, ?_, ?_, ?_, ?_⟩, by decide, by decide⟩
  · exact (sortByScoreDesc_pairwise (prev ++ [e])).sublist
      (List.take_sublist 5 _)
  · have hs := sortByScoreDesc_pairwise (prev ++ [e])
    rw [← List.take_append_drop 5 (sortByScoreDesc (prev ++ [e]))] at hs
    exact (List.pairwise_append.mp hs).2.2
  · show ((sortByScoreDesc (prev ++ [e])).take 5 ++
      (sortByScoreDesc (prev ++ [e])).drop 5).Perm (prev ++ [e])
    rw [List.take_append_drop]
    exact sortByScoreDesc_perm _
  · intro s
    rw [← List.filter_append]
    show _ = ((sortByScoreDesc (prev ++ [e])).take 5 ++
      (sortByScoreDesc (prev ++ [e])).drop 5).filter _
    rw [List.take_append_drop, sortByScoreDesc_filter]
  · intro h
    have hnone : List.findIdx?
        (fun x => x.date == e.date && x.score == e.score)
        (leaderboardUpdate prev e) = none := by
      rw [List.findIdx?_eq_none_iff]
      intro x hx
      have hx' := h x hx
      by_cases e1 : x.date = e.date <;> by_cases e2 : x.score = e.score <;>
        simp [e1, e2] at hx' ⊢
    simp [reportedRank, hnone]

/-- C5 witness: `leaderboardUpdate_spec` at a full leaderboard and a new
entry whose score is too low to stay: the reported rank is `-1`
("not ranked"). -/
theorem leaderboardUpdate_spec_witness :
    reportedRank
      (leaderboardUpdate
        [⟨100, 1, 0, 0⟩, ⟨90, 2, 0, 0⟩, ⟨80, 3, 0, 0⟩, ⟨70, 4, 0, 0⟩,
         ⟨60, 5, 0, 0⟩] ⟨10, 6, 0, 0⟩) ⟨10, 6, 0, 0⟩ = -1 :=
  (leaderboardUpdate_spec.1
    [⟨100, 1, 0, 0⟩, ⟨90, 2, 0, 0⟩, ⟨80, 3, 0, 0⟩, ⟨70, 4, 0, 0⟩,
     ⟨60, 5, 0, 0⟩] ⟨10, 6, 0, 0⟩).2.2.2.2 (by decide)

end Dino
